import Mathlib

/-!
Verification of the `mtx_to_csv` EMME-matrix decoder and CSV writers.

The development shallowly embeds `src/matrix.rs` and `src/util.rs`:

* an input stream is the (decompressed) byte sequence, modelled as
  `List Nat` with each entry a byte value below 256;
* `f32` payload values are carried as their 32-bit little-endian bit
  patterns (`Nat` below `2 ^ 32`); `fmt_fixed5` reproduces Rust's
  `{value:.5}` fixed-point rendering of such a bit pattern exactly
  (round-half-to-even, five digits after the point);
* fallible reads return `Option` / `Except`; a Rust panic (out-of-bounds
  slice or index) is a distinguished `RustPanic` error value.
-/

namespace MtxToCsv

/-- Equality of `Except` results is decidable when it is on both sides. -/
instance {ε α : Type} [DecidableEq ε] [DecidableEq α] : DecidableEq (Except ε α) :=
  fun a b =>
    match a, b with
    | .ok x, .ok y =>
      if h : x = y then isTrue (by rw [h]) else isFalse (by simp [h])
    | .ok _, .error _ => isFalse (by simp)
    | .error _, .ok _ => isFalse (by simp)
    | .error x, .error y =>
      if h : x = y then isTrue (by rw [h]) else isFalse (by simp [h])

/-- Little-endian value of a list of bytes (least significant byte first),
as produced by `byteorder::LittleEndian` on the corresponding byte group. -/
def le (bytes : List Nat) : Nat :=
  bytes.foldr (fun b acc => b + 256 * acc) 0

/-- Read exactly `n` bytes from the stream: the semantics of
`std::io::Read::read_exact` over an in-memory source.  Returns the bytes
read and the remaining stream, or `none` (an `UnexpectedEof` error) when
fewer than `n` bytes remain. -/
def readBytes (n : Nat) (s : List Nat) : Option (List Nat × List Nat) :=
  if n ≤ s.length then some (s.take n, s.drop n) else none

/-- `reader.read_u32::<LittleEndian>()` — four bytes combined little-endian. -/
def read_u32 (s : List Nat) : Option (Nat × List Nat) :=
  match readBytes 4 s with
  | none => none
  | some (b, rest) => some (le b, rest)

/-- Split a flat byte list into `count` consecutive little-endian elements of
`elemSize` bytes each: the reinterpretation step of `read_into_vector`. -/
def chunksLE (elemSize : Nat) : Nat → List Nat → List Nat
  | 0, _ => []
  | n + 1, b => le (b.take elemSize) :: chunksLE elemSize n (b.drop elemSize)

/-- `Reader::read_into_vector::<T>(size)` from `src/util.rs`: allocate
`size` elements of `elemSize = size_of::<T>()` bytes each and fill them
byte-exact from the stream via one `read_exact` over `size * elemSize`
bytes.  On a short read the call fails atomically (`none`): the vector
length is only set after `read_exact` succeeds, so no partial vector is
ever returned. -/
def read_into_vector (elemSize size : Nat) (s : List Nat) :
    Option (List Nat × List Nat) :=
  match readBytes (size * elemSize) s with
  | none => none
  | some (b, rest) => some (chunksLE elemSize size b, rest)

/-- The in-memory matrix of `src/matrix.rs` (`pub struct Matrix`); `data`
holds the `f32` payload as 32-bit little-endian bit patterns. -/
structure Matrix where
  data : List Nat
  rows : Nat
  cols : Nat
  indexes : List (List Nat)
deriving DecidableEq

/-- The distinguishable failure modes of `Matrix::from_emme_file` at the
byte level: the two `InvalidData` errors it constructs itself, plus the
`UnexpectedEof` error a short read produces. -/
inductive DecodeError where
  | invalidHeader
  | invalidDimensions
  | eof
deriving DecidableEq

/-- The magic number checked at offset 0. -/
def magicNumber : Nat := 0xC4D4F1B2

/-- `Matrix::from_emme_file`, from the point where the (possibly
gzip-decompressing) reader has been constructed: the input is the
decompressed byte stream.  Reads magic, version, data type and dimension
count, validates magic and `dimensions == 2`, reads the two index lengths,
the two index arrays, then `index_length[0] * index_length[1]` `f32`
values, and builds the matrix with `rows = index_length[0]`,
`cols = index_length[1]` exactly as the source does. -/
def from_emme_file (s : List Nat) : Except DecodeError Matrix :=
  match read_u32 s with
  | none => .error .eof
  | some (magic_number, s) =>
    if magic_number ≠ magicNumber then .error .invalidHeader
    else
      match read_u32 s with
      | none => .error .eof
      | some (_version, s) =>
        match read_u32 s with
        | none => .error .eof
        | some (_data_type, s) =>
          match read_u32 s with
          | none => .error .eof
          | some (dimensions, s) =>
            if dimensions ≠ 2 then .error .invalidDimensions
            else
              match read_u32 s with
              | none => .error .eof
              | some (len0, s) =>
                match read_u32 s with
                | none => .error .eof
                | some (len1, s) =>
                  match read_into_vector 4 len0 s with
                  | none => .error .eof
                  | some (idx0, s) =>
                    match read_into_vector 4 len1 s with
                    | none => .error .eof
                    | some (idx1, s) =>
                      match read_into_vector 4 (len0 * len1) s with
                      | none => .error .eof
                      | some (data, _) =>
                        .ok { data := data, rows := len0, cols := len1,
                              indexes := [idx0, idx1] }

/-- The panics the writers can hit: a slice `&data[start..end]` whose end
exceeds the vector length, and a direct index `v[i]` out of bounds. -/
inductive RustPanic where
  | sliceOutOfRange
  | indexOutOfBounds
deriving DecidableEq

/-- `Matrix::get_row`: `Some (&data[row*cols .. row*cols+cols])` when
`row < rows`, `None` otherwise.  Rust's slice expression panics when the
upper bound exceeds `data.len()`; that outcome is the `.error` case. -/
def get_row (m : Matrix) (row : Nat) : Except RustPanic (Option (List Nat)) :=
  if row < m.rows then
    let start := row * m.cols
    let stop := start + m.cols
    if stop ≤ m.data.length then
      .ok (some ((m.data.drop start).take m.cols))
    else .error .sliceOutOfRange
  else .ok none

/-- Outcome of a CSV writer run against an in-memory sink that itself never
fails: either the full text written, an `io::Error` the writer returned
(with its message), or a panic. -/
inductive WResult where
  | ok : String → WResult
  | ioErr : String → WResult
  | panicked : WResult
deriving DecidableEq

/-- Rust's `{:.5}` rendering of an `f32` given by its bit pattern `w`:
sign, then the value rounded to exactly five digits after the decimal
point, round-half-to-even; `inf` / `NaN` render as Rust prints them. -/
def fmt_fixed5 (w : Nat) : String :=
  let sgn := w / 2 ^ 31 % 2
  let e := w / 2 ^ 23 % 256
  let f := w % 2 ^ 23
  if e = 255 then
    if f = 0 then (if sgn = 1 then "-inf" else "inf") else "NaN"
  else
    let mantissa := if e = 0 then f else 2 ^ 23 + f
    let sign := if sgn = 1 then "-" else ""
    if 150 ≤ e then
      let scaled := mantissa * 2 ^ (e - 150) * 100000
      sign ++ toString (scaled / 100000) ++ "." ++
        (toString (100000 + scaled % 100000)).drop 1
    else
      let den := 2 ^ (150 - max e 1)
      let num := mantissa * 100000
      let q := num / den
      let r := num % den
      let scaled := q + (if den < 2 * r then 1 else if 2 * r < den then 0 else q % 2)
      sign ++ toString (scaled / 100000) ++ "." ++
        (toString (100000 + scaled % 100000)).drop 1

/-- The row loop of `write_csv_square`: for each row label (position `i`),
write the label, look the row up via `get_row` (a `None` becomes the
`InvalidData` "Invalid row index" error), then the values as `,{v:.5}`. -/
def square_rows (m : Matrix) (labels : List Nat) (i : Nat) : WResult :=
  match labels with
  | [] => .ok ""
  | r :: rest =>
    match get_row m i with
    | .error _ => .panicked
    | .ok none => .ioErr "Invalid row index"
    | .ok (some row_data) =>
      match square_rows m rest (i + 1) with
      | .ok tail =>
        .ok (toString r ++ String.join (row_data.map (fun v => "," ++ fmt_fixed5 v))
              ++ "\n" ++ tail)
      | e => e

/-- `Matrix::write_csv_square`: header `Row\Col` followed by the column
labels (`indexes[0]`), then one line per row label (`indexes[1]`).
Accessing `indexes[0]` / `indexes[1]` panics when fewer than two index
arrays are present. -/
def write_csv_square (m : Matrix) : WResult :=
  match m.indexes with
  | col_indexes :: row_indexes :: _ =>
    match square_rows m row_indexes 0 with
    | .ok body =>
      .ok ("Row\\Col" ++ String.join (col_indexes.map (fun c => "," ++ toString c))
            ++ "\n" ++ body)
    | e => e
  | _ => .panicked

/-- The inner column loop of `write_csv_column`
(`for col_index in 0..number_of_columns`): for each position `j` emit
`row,col_indexes[j],row_data[j]:.5`.  `j` is the loop counter and the
second argument counts the iterations left, starting at
`number_of_columns`; the `row_data[col_index]` and `col_indexes[col_index]`
accesses panic when out of bounds (the latter never fires at the call
site, where the iteration count is exactly `col_indexes.length`). -/
def column_cells (row : Nat) (col_indexes row_data : List Nat) :
    Nat → Nat → Except RustPanic String
  | _, 0 => .ok ""
  | j, remaining + 1 =>
    match row_data[j]? with
    | none => .error .indexOutOfBounds
    | some value =>
      match col_indexes[j]? with
      | none => .error .indexOutOfBounds
      | some col =>
        match column_cells row col_indexes row_data (j + 1) remaining with
        | .error e => .error e
        | .ok tail =>
          .ok (toString row ++ "," ++ toString col ++ "," ++ fmt_fixed5 value
                ++ "\n" ++ tail)

/-- The row loop of `write_csv_column`. -/
def column_rows (m : Matrix) (col_indexes labels : List Nat) (i : Nat) : WResult :=
  match labels with
  | [] => .ok ""
  | r :: rest =>
    match get_row m i with
    | .error _ => .panicked
    | .ok none => .ioErr "Invalid row index"
    | .ok (some row_data) =>
      match column_cells r col_indexes row_data 0 col_indexes.length with
      | .error _ => .panicked
      | .ok lines =>
        match column_rows m col_indexes rest (i + 1) with
        | .ok tail => .ok (lines ++ tail)
        | e => e

/-- `Matrix::write_csv_column`: literal header `Origin,Destination,Value`,
then for each row label and each column position one `origin,dest,value`
line. -/
def write_csv_column (m : Matrix) : WResult :=
  match m.indexes with
  | col_indexes :: row_indexes :: _ =>
    match column_rows m col_indexes row_indexes 0 with
    | .ok body => .ok ("Origin,Destination,Value\n" ++ body)
    | e => e
  | _ => .panicked

/-- `std::io::SeekFrom`; the offsets of `End` and `Current` are signed. -/
inductive SeekFrom where
  | start : Nat → SeekFrom
  | fromEnd : Int → SeekFrom
  | current : Int → SeekFrom

/-- The error of unsupported seeks on a gzip source (`ErrorKind::InvalidInput`). -/
inductive SeekError where
  | invalidInput
deriving DecidableEq

/-- The skip loop of `Seek for Reader` in the `Gzip`/`Current(pos ≥ 0)`
case: repeatedly read at most `min (pos - total_read) 4096` bytes into a
scratch buffer, stopping at end-of-stream or once `total_read ≥ pos`.  The
state is the remaining decompressed stream; a read of `n` bytes from it
returns `min n length` bytes and consumes them. -/
def skip_loop (pos total_read : Nat) (s : List Nat) : List Nat :=
  let remaining := pos - total_read
  let read := min (min remaining 4096) s.length
  if _h : read = 0 then s
  else if pos ≤ total_read + read then s.drop read
  else skip_loop pos (total_read + read) (s.drop read)
termination_by s.length
decreasing_by
  simp only [List.length_drop]
  omega

/-- `Seek::seek` on the `Reader::Gzip` variant: absolute, end-relative and
backward seeks fail with `InvalidInput` without touching the stream; a
forward `Current` seek discards decompressed bytes through the skip loop
and returns `Ok(0)`.  The result pairs the returned value with the stream
state afterwards. -/
def gzip_seek (pos : SeekFrom) (s : List Nat) :
    Except SeekError Nat × List Nat :=
  match pos with
  | .start _ => (.error .invalidInput, s)
  | .fromEnd _ => (.error .invalidInput, s)
  | .current p =>
    if p < 0 then (.error .invalidInput, s)
    else (.ok 0, skip_loop p.toNat 0 s)

/-! ### Concrete inputs used by witnesses and counterexamples -/

/-- A well-formed file: magic, version 1, type float32, 2 dimensions,
index lengths 2 and 2, column labels `[100, 200]`, row labels `[10, 20]`,
payload `[1.0, 2.0, 3.0, 4.0]` as little-endian `f32`. -/
def emmeFile2x2 : List Nat :=
  [0xB2, 0xF1, 0xD4, 0xC4,
   1, 0, 0, 0,
   1, 0, 0, 0,
   2, 0, 0, 0,
   2, 0, 0, 0,
   2, 0, 0, 0,
   100, 0, 0, 0, 200, 0, 0, 0,
   10, 0, 0, 0, 20, 0, 0, 0,
   0, 0, 128, 63, 0, 0, 0, 64, 0, 0, 64, 64, 0, 0, 128, 64]

/-- The matrix `from_emme_file` produces for `emmeFile2x2`; the data
entries are the bit patterns of `1.0`, `2.0`, `3.0`, `4.0`. -/
def emmeMatrix2x2 : Matrix :=
  { data := [0x3F800000, 0x40000000, 0x40400000, 0x40800000],
    rows := 2, cols := 2, indexes := [[100, 200], [10, 20]] }

/-- A well-formed file with one column label (`index length[0] = 1`,
labels `[100]`) and two row labels (`index length[1] = 2`, labels
`[10, 20]`), payload `[1.0, 2.0]`. -/
def emmeFileLen1Len2 : List Nat :=
  [0xB2, 0xF1, 0xD4, 0xC4,
   1, 0, 0, 0,
   1, 0, 0, 0,
   2, 0, 0, 0,
   1, 0, 0, 0,
   2, 0, 0, 0,
   100, 0, 0, 0,
   10, 0, 0, 0, 20, 0, 0, 0,
   0, 0, 128, 63, 0, 0, 0, 64]

/-- The matrix `from_emme_file` produces for `emmeFileLen1Len2`. -/
def emmeMatrixLen1Len2 : Matrix :=
  { data := [0x3F800000, 0x40000000], rows := 1, cols := 2,
    indexes := [[100], [10, 20]] }

/-- A well-formed file with two column labels (`[100, 200]`) and one row
label (`[10]`), payload `[1.0, 2.0]`. -/
def emmeFileLen2Len1 : List Nat :=
  [0xB2, 0xF1, 0xD4, 0xC4,
   1, 0, 0, 0,
   1, 0, 0, 0,
   2, 0, 0, 0,
   2, 0, 0, 0,
   1, 0, 0, 0,
   100, 0, 0, 0, 200, 0, 0, 0,
   10, 0, 0, 0,
   0, 0, 128, 63, 0, 0, 0, 64]

/-- The matrix `from_emme_file` produces for `emmeFileLen2Len1`. -/
def emmeMatrixLen2Len1 : Matrix :=
  { data := [0x3F800000, 0x40000000], rows := 2, cols := 1,
    indexes := [[100, 200], [10]] }

/-! ### Helper lemmas -/

theorem readBytes_of_le {n : Nat} {s : List Nat} (h : n ≤ s.length) :
    readBytes n s = some (s.take n, s.drop n) := by
  simp [readBytes, h]

theorem readBytes_of_lt {n : Nat} {s : List Nat} (h : s.length < n) :
    readBytes n s = none := by
  simp [readBytes]
  omega

theorem read_u32_some {s : List Nat} {v : Nat} {r : List Nat}
    (h : read_u32 s = some (v, r)) :
    v = le (s.take 4) ∧ r = s.drop 4 ∧ 4 ≤ s.length := by
  unfold read_u32 readBytes at h
  by_cases hl : 4 ≤ s.length
  · simp [hl] at h
    exact ⟨h.1.symm, h.2.symm, hl⟩
  · simp [hl] at h

theorem read_u32_of_le {s : List Nat} (h : 4 ≤ s.length) :
    read_u32 s = some (le (s.take 4), s.drop 4) := by
  unfold read_u32
  rw [readBytes_of_le h]

theorem chunksLE_length (es : Nat) : ∀ (n : Nat) (b : List Nat),
    (chunksLE es n b).length = n := by
  intro n
  induction n with
  | zero => intro b; simp [chunksLE]
  | succ k ih => intro b; simp [chunksLE, ih]

theorem chunksLE_eq_map (es : Nat) : ∀ (n : Nat) (b : List Nat),
    chunksLE es n b = (List.range n).map (fun i => le ((b.drop (i * es)).take es)) := by
  intro n
  induction n with
  | zero => intro b; simp [chunksLE]
  | succ k ih =>
    intro b
    rw [chunksLE, List.range_succ_eq_map]
    simp only [List.map_cons, List.map_map]
    congr 1
    · simp
    · rw [ih (b.drop es)]
      apply List.map_congr_left
      intro i _
      simp only [Function.comp_apply, List.drop_drop]
      congr 2
      rw [Nat.succ_eq_add_one]
      ring_nf

theorem read_into_vector_some {es n : Nat} {s v r : List Nat}
    (h : read_into_vector es n s = some (v, r)) :
    v.length = n ∧ r = s.drop (n * es) ∧ n * es ≤ s.length := by
  unfold read_into_vector at h
  by_cases hl : n * es ≤ s.length
  · rw [readBytes_of_le hl] at h
    simp only [Option.some.injEq, Prod.mk.injEq] at h
    refine ⟨?_, h.2.symm, hl⟩
    rw [← h.1, chunksLE_length]
  · rw [readBytes_of_lt (by omega)] at h
    cases h

theorem read_into_vector_of_le {es n : Nat} {s : List Nat}
    (h : n * es ≤ s.length) :
    read_into_vector es n s =
      some ((List.range n).map (fun i => le ((s.drop (i * es)).take es)),
            s.drop (n * es)) := by
  simp only [read_into_vector, readBytes_of_le h]
  rw [chunksLE_eq_map]
  have hmap : (List.range n).map
        (fun i => le ((( s.take (n * es)).drop (i * es)).take es)) =
      (List.range n).map (fun i => le ((s.drop (i * es)).take es)) := by
    apply List.map_congr_left
    intro i hi
    simp only [List.mem_range] at hi
    have h2 : i * es + es ≤ n * es := by
      calc i * es + es = (i + 1) * es := by ring
        _ ≤ n * es := Nat.mul_le_mul_right es (by omega)
    congr 1
    rw [List.drop_take, List.take_take]
    congr 1
    omega
  rw [hmap]

theorem read_into_vector_of_lt {es n : Nat} {s : List Nat}
    (h : s.length < n * es) :
    read_into_vector es n s = none := by
  unfold read_into_vector
  rw [readBytes_of_lt h]

/-- Inversion for a successful decode: the matrix shape produced by
`from_emme_file` in terms of the two decoded index arrays. -/
theorem from_emme_file_ok {s : List Nat} {M : Matrix}
    (h : from_emme_file s = .ok M) :
    ∃ idx0 idx1 : List Nat,
      M.indexes = [idx0, idx1] ∧ M.rows = idx0.length ∧
      M.cols = idx1.length ∧ M.data.length = M.rows * M.cols := by
  unfold from_emme_file at h
  repeat' split at h
  any_goals cases h
  rename_i x2 idx0 rest2 hidx0 x1 idx1 rest1 hidx1 x0 data0 rest0 hdata
  obtain ⟨hl0, -, -⟩ := read_into_vector_some hidx0
  obtain ⟨hl1, -, -⟩ := read_into_vector_some hidx1
  obtain ⟨hld, -, -⟩ := read_into_vector_some hdata
  exact ⟨idx0, idx1, rfl, hl0.symm, hl1.symm, by simp [hld]⟩

/-- With at least four bytes available and a wrong magic value the decoder
fails with the invalid-header error. -/
theorem from_emme_file_magic_branch {s : List Nat} (h4 : 4 ≤ s.length)
    (hne : le (s.take 4) ≠ magicNumber) :
    from_emme_file s = .error .invalidHeader := by
  unfold from_emme_file
  rw [read_u32_of_le h4]
  simp [hne]

/-- Once the magic value matches, no later step produces the
invalid-header error. -/
theorem from_emme_file_not_invalidHeader {s : List Nat}
    (heq : le (s.take 4) = magicNumber) :
    from_emme_file s ≠ .error .invalidHeader := by
  unfold from_emme_file
  cases hr : read_u32 s with
  | none => simp
  | some p =>
    obtain ⟨m, r⟩ := p
    obtain ⟨hm, -, -⟩ := read_u32_some hr
    have hmg : m = magicNumber := hm.trans heq
    simp only [hmg, ne_eq, not_true_eq_false, if_false]
    repeat' split
    all_goals simp

/-- The skip loop discards exactly the bytes up to the target offset, or
the whole stream when it is shorter. -/
theorem skip_loop_eq_drop :
    ∀ (n pos total : Nat) (s : List Nat), s.length ≤ n →
      skip_loop pos total s = s.drop (pos - total) := by
  intro n
  induction n with
  | zero =>
    intro pos total s hs
    have hnil : s = [] := List.eq_nil_of_length_eq_zero (by omega)
    subst hnil
    rw [skip_loop]
    simp
  | succ k ih =>
    intro pos total s hs
    rw [skip_loop]
    split
    · rename_i h0
      have hz : pos - total = 0 ∨ s.length = 0 := by omega
      rcases hz with hz | hz
      · rw [hz]
        simp
      · have hnil : s = [] := List.eq_nil_of_length_eq_zero hz
        subst hnil
        simp
    · rename_i h0
      split
      · rename_i hle
        congr 1
        omega
      · rename_i hgt
        rw [ih pos (total + ((pos - total) ⊓ 4096 ⊓ s.length))
              (s.drop ((pos - total) ⊓ 4096 ⊓ s.length))
              (by simp only [List.length_drop]; omega)]
        rw [List.drop_drop]
        congr 1
        omega

/-- `gzip_seek` on a forward-relative offset: the stream afterwards is the
original stream with `min k length` bytes discarded. -/
theorem skip_loop_spec (pos : Nat) (s : List Nat) :
    skip_loop pos 0 s = s.drop pos :=
  (skip_loop_eq_drop s.length pos 0 s le_rfl).trans (by simp)

theorem column_cells_short (row : Nat) (ci rd : List Nat)
    (hlt : rd.length < ci.length) :
    ∀ (k j : Nat), j + k = ci.length → j ≤ rd.length →
      column_cells row ci rd j k = .error .indexOutOfBounds := by
  intro k
  induction k with
  | zero =>
    intro j hj hle
    exfalso
    omega
  | succ k ih =>
    intro j hj hle
    by_cases hjr : j < rd.length
    · rw [column_cells]
      rw [List.getElem?_eq_getElem hjr]
      have hjc : j < ci.length := by omega
      rw [List.getElem?_eq_getElem hjc]
      rw [ih (j + 1) (by omega) (by omega)]
    · have hj_eq : rd[j]? = none := List.getElem?_eq_none (by omega)
      rw [column_cells, hj_eq]

/-- A successful decode implies at least four bytes were available and the
magic value matched. -/
theorem from_emme_file_ok_magic {s : List Nat} {M : Matrix}
    (h : from_emme_file s = .ok M) :
    4 ≤ s.length ∧ le (s.take 4) = magicNumber := by
  rcases Nat.lt_or_ge s.length 4 with h4 | h4
  · unfold from_emme_file read_u32 at h
    rw [readBytes_of_lt h4] at h
    simp at h
  · by_cases hm : le (s.take 4) = magicNumber
    · exact ⟨h4, hm⟩
    · rw [from_emme_file_magic_branch h4 hm] at h
      simp at h

/-! ### Claims -/

/-- C1: the claim states that a successfully decoded file with
`index length[0] = m` and `index length[1] = n` yields `cols = m`,
`rows = n`.  The code assigns the transposed way round: evaluating the
decoder on a file with `m = 1` column label and `n = 2` row labels yields
`rows = 1` and `cols = 2`, where the claim requires `cols = 1`,
`rows = 2`. -/
theorem c1_rows_cols_transposed :
    from_emme_file emmeFileLen1Len2 = .ok emmeMatrixLen1Len2 ∧
    emmeMatrixLen1Len2.indexes = [[100], [10, 20]] ∧
    emmeMatrixLen1Len2.rows = 1 ∧ emmeMatrixLen1Len2.cols = 2 := by
  decide

/-- C2: the claim states that the "Invalid row index" branch of both
writers is unreachable for a successfully decoded matrix.  It is
reachable: the matrix decoded from `emmeFileLen1Len2` (one column label,
two row labels) makes both writers return exactly that error, because
`rows` was set from `index length[0]` while the writers iterate over the
`index length[1]` row labels. -/
theorem c2_invalid_row_index_reachable :
    from_emme_file emmeFileLen1Len2 = .ok emmeMatrixLen1Len2 ∧
    write_csv_square emmeMatrixLen1Len2 = .ioErr "Invalid row index" ∧
    write_csv_column emmeMatrixLen1Len2 = .ioErr "Invalid row index" := by
  decide

/-- C3: every matrix returned by a successful decode satisfies
`data.length = rows * cols` exactly. -/
theorem c3_data_length (s : List Nat) (M : Matrix)
    (h : from_emme_file s = .ok M) : M.data.length = M.rows * M.cols := by
  obtain ⟨i0, i1, -, -, -, hd⟩ := from_emme_file_ok h
  exact hd

/-- Witness for C3 on the concrete well-formed 2×2 file. -/
theorem c3_data_length_witness :
    emmeMatrix2x2.data.length = emmeMatrix2x2.rows * emmeMatrix2x2.cols :=
  c3_data_length emmeFile2x2 emmeMatrix2x2 (by decide)

/-- C4: given four readable bytes, the decoder fails with the
invalid-header error iff their little-endian value differs from
`0xC4D4F1B2`; and flipping any one of the first four bytes of a stream
that decoded successfully makes decoding fail with that error. -/
theorem c4_invalid_header (s : List Nat) :
    (4 ≤ s.length →
      (from_emme_file s = .error .invalidHeader ↔
        le (s.take 4) ≠ magicNumber)) ∧
    (∀ (M : Matrix) (i v : Nat), from_emme_file s = .ok M → i < 4 →
      v ≠ s.getD i 0 →
      from_emme_file (s.set i v) = .error .invalidHeader) := by
  constructor
  · intro h4
    constructor
    · intro herr hmag
      exact from_emme_file_not_invalidHeader hmag herr
    · intro hne
      exact from_emme_file_magic_branch h4 hne
  · intro M i v hok hi hv
    obtain ⟨h4, hmag⟩ := from_emme_file_ok_magic hok
    apply from_emme_file_magic_branch
    · simp only [List.length_set]
      exact h4
    · match s, h4 with
      | b0 :: b1 :: b2 :: b3 :: t, _ =>
        interval_cases i <;>
          simp [le, magicNumber, List.getD] at hmag hv ⊢ <;>
          omega

/-- Witness for C4: both directions at concrete inputs — the well-formed
file does not raise the invalid-header error, and the same file with its
first byte flipped fails with exactly that error. -/
theorem c4_invalid_header_witness :
    from_emme_file emmeFile2x2 ≠ .error .invalidHeader ∧
    from_emme_file (emmeFile2x2.set 0 0xB3) = .error .invalidHeader := by
  have h := c4_invalid_header emmeFile2x2
  constructor
  · intro hbad
    exact (h.1 (by decide)).mp hbad (by decide)
  · exact h.2 emmeMatrix2x2 0 0xB3 (by decide) (by decide) (by decide)

/-- C5 counterexample: the claim quantifies over every `Matrix`, but for a
matrix whose `data` is shorter than `rows * cols` demands (constructible,
as all fields are public) `get_row` panics on the slice rather than
returning the claimed `Some` slice. -/
theorem c5_counterexample :
    get_row { data := [], rows := 1, cols := 1, indexes := [] } 0 =
      .error .sliceOutOfRange := by
  decide

/-- C5 (amended): for every matrix whose data is at least `rows * cols`
long — in particular every successfully decoded one — `get_row row`
returns `Some` of the slice `data[row*cols .. row*cols+cols]` when
`row < rows` and `None` when `row ≥ rows`. -/
theorem c5_get_row (m : Matrix) (row : Nat)
    (hinv : m.rows * m.cols ≤ m.data.length) :
    (row < m.rows →
       get_row m row = .ok (some ((m.data.drop (row * m.cols)).take m.cols))) ∧
    (m.rows ≤ row → get_row m row = .ok none) := by
  constructor
  · intro hlt
    have hstop : row * m.cols + m.cols ≤ m.data.length := by
      have hmul : (row + 1) * m.cols ≤ m.rows * m.cols :=
        Nat.mul_le_mul_right _ (by omega)
      calc row * m.cols + m.cols = (row + 1) * m.cols := by ring
        _ ≤ m.rows * m.cols := hmul
        _ ≤ m.data.length := hinv
    simp only [get_row, if_pos hlt, if_pos hstop]
  · intro hge
    simp only [get_row, if_neg (by omega : ¬ row < m.rows)]

/-- Witness for C5 on the concrete 2×2 matrix, one row in range and one
out of range. -/
theorem c5_get_row_witness :
    get_row emmeMatrix2x2 1 =
      .ok (some ((emmeMatrix2x2.data.drop (1 * emmeMatrix2x2.cols)).take
            emmeMatrix2x2.cols)) ∧
    get_row emmeMatrix2x2 5 = .ok none :=
  ⟨(c5_get_row emmeMatrix2x2 1 (by decide)).1 (by decide),
   (c5_get_row emmeMatrix2x2 5 (by decide)).2 (by decide)⟩

/-- C6: the square CSV text for the 2×2 matrix with column labels
`[100, 200]`, row labels `[10, 20]` and payload `[1.0, 2.0, 3.0, 4.0]`. -/
theorem c6_write_csv_square_2x2 :
    write_csv_square emmeMatrix2x2 =
      .ok "Row\\Col,100,200\n10,1.00000,2.00000\n20,3.00000,4.00000\n" := by
  decide

/-- C7: the long-format CSV text for the same matrix, emitted in
row-major order. -/
theorem c7_write_csv_column_2x2 :
    write_csv_column emmeMatrix2x2 =
      .ok "Origin,Destination,Value\n10,100,1.00000\n10,200,2.00000\n20,100,3.00000\n20,200,4.00000\n" := by
  decide

/-- C8 counterexample: the claim says a non-negative `Current(k)` seek
consumes exactly `k` decompressed bytes for every `k`.  On an exhausted
stream a seek of 1 returns `Ok` having consumed 0 bytes, not 1: the loop
stops at end-of-stream without error. -/
theorem c8_counterexample :
    gzip_seek (SeekFrom.current 1) [] = (.ok 0, ([] : List Nat)) ∧
    ([] : List Nat).length - (gzip_seek (SeekFrom.current 1) []).2.length ≠ 1 := by
  have h : gzip_seek (SeekFrom.current 1) [] = (.ok 0, ([] : List Nat)) := by
    simp only [gzip_seek]
    rw [if_neg (by decide), skip_loop_spec]
    rfl
  exact ⟨h, by rw [h]; decide⟩

/-- C8 (amended): on a gzip reader, `Start`, `End` and negative `Current`
seeks fail with the `InvalidInput` error and leave the stream untouched;
a non-negative `Current(k)` seek returns `Ok(0)` with the stream advanced
by `min k remaining` decompressed bytes — exactly `k` whenever at least
`k` bytes remain. -/
theorem c8_gzip_seek (s : List Nat) :
    (∀ n : Nat, gzip_seek (.start n) s = (.error .invalidInput, s)) ∧
    (∀ n : Int, gzip_seek (.fromEnd n) s = (.error .invalidInput, s)) ∧
    (∀ k : Int, k < 0 → gzip_seek (.current k) s = (.error .invalidInput, s)) ∧
    (∀ k : Int, 0 ≤ k →
       gzip_seek (.current k) s = (.ok 0, s.drop k.toNat) ∧
       s.length - (s.drop k.toNat).length = min k.toNat s.length) := by
  refine ⟨fun n => rfl, fun n => rfl, fun k hk => ?_, fun k hk => ?_⟩
  · simp only [gzip_seek]
    rw [if_pos hk]
  · constructor
    · simp only [gzip_seek]
      rw [if_neg (by omega), skip_loop_spec]
    · simp only [List.length_drop]
      omega

/-- Witness for C8: all four behaviours at concrete inputs. -/
theorem c8_gzip_seek_witness :
    gzip_seek (.start 7) [9, 8, 7, 6, 5] = (.error .invalidInput, [9, 8, 7, 6, 5]) ∧
    gzip_seek (.fromEnd 0) [9, 8, 7, 6, 5] = (.error .invalidInput, [9, 8, 7, 6, 5]) ∧
    gzip_seek (.current (-2)) [9, 8, 7, 6, 5] = (.error .invalidInput, [9, 8, 7, 6, 5]) ∧
    gzip_seek (.current 3) [9, 8, 7, 6, 5] = (.ok 0, [6, 5]) := by
  have h := c8_gzip_seek [9, 8, 7, 6, 5]
  refine ⟨h.1 7, h.2.1 0, h.2.2.1 (-2) (by decide), ?_⟩
  have h3 := (h.2.2.2 3 (by decide)).1
  simpa using h3

/-- C9: `read_into_vector` over elements of `sz` bytes returns, whenever
`n * sz` bytes remain, exactly `n` elements, the `i`-th being the
little-endian value of bytes `[i*sz, (i+1)*sz)` of the stream; with fewer
bytes it returns the end-of-data error and no vector at all. -/
theorem c9_read_into_vector (sz n : Nat) (s : List Nat) :
    (n * sz ≤ s.length →
       read_into_vector sz n s =
         some ((List.range n).map (fun i => le ((s.drop (i * sz)).take sz)),
               s.drop (n * sz))) ∧
    (∀ (v r : List Nat), read_into_vector sz n s = some (v, r) →
       v.length = n) ∧
    (s.length < n * sz → read_into_vector sz n s = none) :=
  ⟨fun h => read_into_vector_of_le h,
   fun _ _ h => (read_into_vector_some h).1,
   fun h => read_into_vector_of_lt h⟩

/-- Witness for C9: two 4-byte elements from a 9-byte stream, and failure
on a request for three. -/
theorem c9_read_into_vector_witness :
    read_into_vector 4 2 [1, 0, 0, 0, 2, 0, 0, 0, 9] = some ([1, 2], [9]) ∧
    read_into_vector 4 3 [1, 0, 0, 0, 2, 0, 0, 0, 9] = none := by
  constructor
  · have h := (c9_read_into_vector 4 2 [1, 0, 0, 0, 2, 0, 0, 0, 9]).1 (by decide)
    rw [h]
    decide
  · exact (c9_read_into_vector 4 3 [1, 0, 0, 0, 2, 0, 0, 0, 9]).2.2 (by decide)

/-- C10: any successfully decoded matrix whose first index array (the
column labels) is strictly longer than its non-empty second index array
makes `write_csv_column` panic via the out-of-bounds `row_data[col_index]`
access, instead of returning an `io::Error`. -/
theorem c10_write_csv_column_panics (s : List Nat) (M : Matrix)
    (idx0 idx1 : List Nat) (hok : from_emme_file s = .ok M)
    (hidx : M.indexes = [idx0, idx1]) (hlen : idx1.length < idx0.length)
    (hne : idx1 ≠ []) :
    write_csv_column M = .panicked := by
  obtain ⟨j0, j1, hidx2, hr, hc, hd⟩ := from_emme_file_ok hok
  rw [hidx] at hidx2
  obtain ⟨rfl, rfl⟩ : idx0 = j0 ∧ idx1 = j1 := by
    injection hidx2 with h1 h2
    injection h2 with h2 h3
    exact ⟨h1, h2⟩
  obtain ⟨r, rest, rfl⟩ := List.exists_cons_of_ne_nil hne
  have hpos : 0 < M.rows := by
    rw [hr]
    omega
  have hstop : 0 * M.cols + M.cols ≤ M.data.length := by
    rw [hd]
    have := Nat.le_mul_of_pos_left M.cols hpos
    omega
  have hgr : get_row M 0 =
      .ok (some ((M.data.drop (0 * M.cols)).take M.cols)) := by
    simp only [get_row, if_pos hpos, if_pos hstop]
  have hrdlen : ((M.data.drop (0 * M.cols)).take M.cols).length =
      (r :: rest).length := by
    simp only [List.length_take, List.length_drop]
    rw [← hc]
    have := Nat.le_mul_of_pos_left M.cols hpos
    omega
  have hcells : column_cells r idx0 ((M.data.drop (0 * M.cols)).take M.cols)
      0 idx0.length = .error .indexOutOfBounds := by
    apply column_cells_short
    · omega
    · omega
    · exact Nat.zero_le _
  unfold write_csv_column
  rw [hidx]
  show (match column_rows M idx0 (r :: rest) 0 with
        | .ok body => WResult.ok ("Origin,Destination,Value\n" ++ body)
        | e => e) = WResult.panicked
  rw [column_rows, hgr]
  simp only [hcells]

/-- Witness for C10: the decoded two-column, one-row file. -/
theorem c10_write_csv_column_panics_witness :
    write_csv_column emmeMatrixLen2Len1 = .panicked :=
  c10_write_csv_column_panics emmeFileLen2Len1 emmeMatrixLen2Len1
    [100, 200] [10] (by decide) (by decide) (by decide) (by decide)

end MtxToCsv
